import Mathlib

/-!
Shallow embedding of the setVCD evaluation engine
(src/setVCD/setVCD.py and src/setVCD/types.py).

The trace accessor follows the capability contract the engine requires of
its external decoder: a per-signal ordered transition list `tv` plus a
point lookup returning the value of the last transition at-or-before a
queried time (spec section 2, TraceAccessor).  Machine strings are Lean
`String`s; Python `set`s are `Finset`s; Python exceptions are modelled by
`Except` with a structured error type carrying the data the real error
messages interpolate.
-/

namespace SetVCDModel

/-- Equality of `Except` results is decidable when both components are;
needed to evaluate the engine on concrete traces inside proofs. -/
instance {ε α : Type} [DecidableEq ε] [DecidableEq α] :
    DecidableEq (Except ε α) := fun a b =>
  match a, b with
  | Except.error e, Except.error f =>
    if h : e = f then isTrue (by rw [h]) else isFalse (by simp [h])
  | Except.error _, Except.ok _ => isFalse (by simp)
  | Except.ok _, Except.error _ => isFalse (by simp)
  | Except.ok x, Except.ok y =>
    if h : x = y then isTrue (by rw [h]) else isFalse (by simp [h])

/-- Bit-string parse, the `int(value, 2)` step of `_value_to_int`.
`int(value, 2)` on the bit strings a VCD decoder produces succeeds exactly
when the string is a nonempty sequence of 0/1 digits; a `ValueError` is
returned as `none` (the defensive `except` branch of `_value_to_int`). -/
def parseBin (cs : List Char) : Option Nat :=
  if cs.isEmpty then none
  else if cs.all (fun c => c == '0' || c == '1') then
    some (cs.foldl (fun acc c => 2 * acc + (if c == '1' then 1 else 0)) 0)
  else none

/-- Lowercased character list of a string (`value.lower()` seen as chars;
Lean's `String.toLower` maps `Char.toLower` over the characters, which is
what we do directly so terms evaluate inside the kernel). -/
def lowerChars (s : String) : List Char := s.data.map Char.toLower

/-- Mirrors `_value_to_int` (src/setVCD/setVCD.py lines 21-51): lowercase the
value, return `none` when it contains x or z, otherwise parse it base 2. -/
def value_to_int (value : String) : Option Nat :=
  let value_lower := lowerChars value
  if value_lower.contains 'x' || value_lower.contains 'z' then none
  else parseBin value.data

/-- A trace signal: the ordered transition list `tv` of the
vcdvcd `Signal` object (capability contract, spec section 2). -/
structure Signal where
  tv : List (Nat × String)
deriving DecidableEq

/-- Point lookup "value at time t": value of the last transition
at-or-before `t`, `none` when no transition is at-or-before `t`
(the accessor has nothing to return there and the Python layer
sees an exception).  Transition times are ascending, so the last
list entry with time at most `t` is the last transition at-or-before `t`. -/
def Signal.lookup (sig : Signal) (t : Int) : Option String :=
  ((sig.tv.filter (fun p => decide ((p.1 : Int) ≤ t))).getLast?).map Prod.snd

/-- The capability object handed to the constructor: enumerate all signal
names, resolve a name to its accessor (`get_signals` / `__getitem__`). -/
structure VCDWave where
  signals : List (String × Signal)
deriving DecidableEq

/-- Mirrors `wave.get_signals()`. -/
def VCDWave.get_signals (w : VCDWave) : List String := w.signals.map Prod.fst

/-- Mirrors `wave[name]`: resolve a signal name to its accessor. -/
def VCDWave.getSignal (w : VCDWave) (name : String) : Option Signal :=
  (w.signals.find? (fun p => p.1 == name)).map Prod.snd

/-- The error taxonomy of src/setVCD/exceptions.py, restricted to the
constructors the capability-object paths can raise.  Each constructor
carries the data its Python message interpolates. -/
inductive VCDError where
  | emptyVCD (msg : String)
  | clockSignalError (clock : String) (similar : List String) (available : List String)
  | signalNotFound (name : String) (similar : List String) (available : List String)
  | invalidSignalCondition (time : Nat) (cause : String)
  | parseAccess (signal : String) (time : Int)
  | parseMsg (msg : String)
deriving DecidableEq

/-- Substring test on character lists, Python's `part in sig_lower`. -/
def isSubstrOf (needle hay : List Char) : Bool :=
  (List.range (hay.length + 1)).any (fun i => needle.isPrefixOf (hay.drop i))

/-- Split a character list on '.', Python's `str.split(".")`. -/
def splitDot : List Char → List (List Char)
  | [] => [[]]
  | c :: cs =>
    if c == '.' then [] :: splitDot cs
    else
      match splitDot cs with
      | [] => [[c]]
      | h :: t => (c :: h) :: t

/-- `[p for p in name.lower().split(".") if p]`: lowercase parts of the
requested name, empty parts dropped. -/
def searchParts (name : String) : List (List Char) :=
  (splitDot (lowerChars name)).filter (fun p => !p.isEmpty)

/-- Score of one existing signal name: how many requested parts it
contains as a substring, lowercased
(`sum(1 for part in search_parts if part in sig_lower)`). -/
def scoreName (search sig : String) : Nat :=
  ((searchParts search).filter (fun part => isSubstrOf part (lowerChars sig))).length

/-- The `scored_signals` list: every signal with positive score, paired
with its score, in enumeration order. -/
def scoredOf (search : String) (all_signals : List String) : List (Nat × String) :=
  all_signals.filterMap (fun sig =>
    let m := scoreName search sig
    if 0 < m then some (m, sig) else none)

/-- `scored_signals.sort(reverse=True, key=lambda x: x[0])`: stable sort by
descending score (Python's sort is stable; `mergeSort` with this comparison
is its Lean counterpart). -/
def rankedOf (search : String) (all_signals : List String) : List (Nat × String) :=
  (scoredOf search all_signals).mergeSort (fun a b => decide (b.1 ≤ a.1))

/-- `similar = [sig for _, sig in scored_signals[:5]]`: the suggestion list. -/
def suggest (search : String) (all_signals : List String) : List String :=
  ((rankedOf search all_signals).take 5).map Prod.snd

/-- The names the error message presents: the suggestions when any exist,
otherwise the first 10 of all signal names
(the `if similar: ... else: all_signals[:10]` message branch). -/
def suggestionDisplay (similar all : List String) : List String :=
  if similar.isEmpty then all.take 10 else similar

/-- A caller-supplied condition over a (prev, cur, next) window of decoded
values.  `Except String` models a condition that may raise, with the cause
message. -/
def SignalCondition : Type :=
  Option Nat → Option Nat → Option Nat → Except String Bool

/-- Engine state after construction: the wave, the clock accessor, and
`last_clock`, the clock's last transition time (T_max). -/
structure SetVCD where
  wave : VCDWave
  clockSig : Signal
  last_clock : Nat
deriving DecidableEq

/-- Mirrors `SetVCD.__init__` on the capability-object branch
(src/setVCD/setVCD.py lines 88-141): empty-signal check first, then exact
clock match (else `ClockSignalError` with fuzzy suggestions), then clock
resolution, then the empty-transition-list check; on success `last_clock`
is the clock's last transition time. -/
def SetVCD.init (wave : VCDWave) (clock : String) : Except VCDError SetVCD :=
  let all_signals := wave.get_signals
  if all_signals.isEmpty then
    Except.error (VCDError.emptyVCD "VCD file contains no signals")
  else if all_signals.contains clock then
    match wave.getSignal clock with
    | some csig =>
      match csig.tv.getLast? with
      | some last => Except.ok ⟨wave, csig, last.1⟩
      | none => Except.error (VCDError.emptyVCD
          ("Clock signal " ++ clock ++ " has no time/value data"))
    | none => Except.error (VCDError.parseMsg
        ("Failed to access clock signal " ++ clock))
  else
    Except.error (VCDError.clockSignalError clock
      (suggest clock all_signals) all_signals)

/-- One raw point access inside the scan: a failed accessor lookup is the
wrapped `VCDParseError` naming the signal and the current tick `t`. -/
def fetchVal (sig : Signal) (name : String) (t : Nat) (i : Int) :
    Except VCDError String :=
  match sig.lookup i with
  | some v => Except.ok v
  | none => Except.error (VCDError.parseAccess name (t : Int))

/-- The raw window fetched at tick `t` (src/setVCD/setVCD.py lines 214-219):
`sm1_str` is `none` at t=0, `sp1_str` is `none` at t=last_clock; the three
accesses happen in source order, so the first failing access aborts. -/
def rawWindowAt (sig : Signal) (name : String) (lc t : Nat) :
    Except VCDError (Option String × String × Option String) :=
  match (if 0 < t then (fetchVal sig name t ((t : Int) - 1)).map some
         else Except.ok none) with
  | Except.error e => Except.error e
  | Except.ok sm1_str =>
    match fetchVal sig name t (t : Int) with
    | Except.error e => Except.error e
    | Except.ok s_str =>
      match (if t < lc then (fetchVal sig name t ((t : Int) + 1)).map some
             else Except.ok none) with
      | Except.error e => Except.error e
      | Except.ok sp1_str => Except.ok (sm1_str, s_str, sp1_str)

/-- Decode the raw window with `_value_to_int`
(src/setVCD/setVCD.py lines 221-228): boundary `None`s stay `None`,
strings decode to `none` on x/z. -/
def decodeWin (w : Option String × String × Option String) :
    Option Nat × Option Nat × Option Nat :=
  (w.1.bind value_to_int, value_to_int w.2.1, w.2.2.bind value_to_int)

/-- The whole per-tick body: fetch the raw window, decode it, invoke the
condition; a condition failure becomes `InvalidSignalConditionError`
naming the tick and the cause (src/setVCD/setVCD.py lines 230-237). -/
def stepCheck (sig : Signal) (name : String) (lc : Nat)
    (cond : SignalCondition) (t : Nat) : Except VCDError Bool :=
  match rawWindowAt sig name lc t with
  | Except.error e => Except.error e
  | Except.ok w =>
    let d := decodeWin w
    match cond d.1 d.2.1 d.2.2 with
    | Except.error cause =>
        Except.error (VCDError.invalidSignalCondition t cause)
    | Except.ok check => Except.ok check

/-- The dense scan `for time in range(0, last_clock + 1)` accumulating the
result set (src/setVCD/setVCD.py lines 209-252). -/
def getLoop (sig : Signal) (name : String) (lc : Nat) (cond : SignalCondition) :
    List Nat → Finset Nat → Except VCDError (Finset Nat)
  | [], out => Except.ok out
  | t :: ts, out =>
    match stepCheck sig name lc cond t with
    | Except.error e => Except.error e
    | Except.ok check =>
        getLoop sig name lc cond ts (if check then insert t out else out)

/-- Mirrors `SetVCD.get` (src/setVCD/setVCD.py lines 162-252): membership
check with fuzzy suggestions on failure, signal resolution, then the dense
scan over [0, last_clock].  The Python `callable(signal_condition)` check
is vacuous here: every Lean `SignalCondition` is a function. -/
def SetVCD.get (vs : SetVCD) (signal_name : String) (cond : SignalCondition) :
    Except VCDError (Finset Nat) :=
  let all_signals := vs.wave.get_signals
  if all_signals.contains signal_name then
    match vs.wave.getSignal signal_name with
    | some sig =>
        getLoop sig signal_name vs.last_clock cond
          (List.range (vs.last_clock + 1)) ∅
    | none => Except.error (VCDError.parseMsg
        ("Failed to access signal " ++ signal_name))
  else
    Except.error (VCDError.signalNotFound signal_name
      (suggest signal_name all_signals) all_signals)

/-- The value-collection loop of `get_values`
(src/setVCD/setVCD.py lines 308-318): query the accessor at exactly each
requested time, decode with `_value_to_int`, abort on an access failure.
Python iterates the input set in an unspecified order and then sorts by
time; the model iterates in ascending order, a legal instance of that
unspecified order. -/
def valuesLoop (sig : Signal) (name : String) :
    List Int → Except VCDError (List (Int × Option Nat))
  | [] => Except.ok []
  | t :: ts =>
    match sig.lookup t with
    | none => Except.error (VCDError.parseAccess name t)
    | some v => (valuesLoop sig name ts).map (fun L => (t, value_to_int v) :: L)

/-- Mirrors `SetVCD.get_values` (src/setVCD/setVCD.py lines 254-323):
membership check with fuzzy suggestions on failure, signal resolution,
per-time decode with no domain check, final `result.sort(key=time)`. -/
def SetVCD.get_values (vs : SetVCD) (signal_name : String)
    (timesteps : Finset Int) : Except VCDError (List (Int × Option Nat)) :=
  let all_signals := vs.wave.get_signals
  if all_signals.contains signal_name then
    match vs.wave.getSignal signal_name with
    | some sig =>
        (valuesLoop sig signal_name (timesteps.sort (fun a b => a ≤ b))).map
          (fun L => L.mergeSort (fun a b => decide (a.1 ≤ b.1)))
    | none => Except.error (VCDError.parseMsg
        ("Failed to access signal " ++ signal_name))
  else
    Except.error (VCDError.signalNotFound signal_name
      (suggest signal_name all_signals) all_signals)

/-- Modelled from the spec: the FixedPoint(frac, signed) decode of the
value-type layer.  src/setVCD/types.py declares the `FP` policy (its
`frac` and `signed` fields, lines 124-143) but the decode path that applies
a value-type policy is absent from src/; spec section 4.3 defines it:
delegate to Raw, and on success, if signed and the top bit is set,
subtract 2^width before dividing; result = signed_int / 2^frac.
Exact rationals stand in for Python floats. -/
def fp_decode (frac : Nat) (signed : Bool) (value : String) : Option ℚ :=
  match value_to_int value with
  | none => none
  | some n =>
    let width := value.data.length
    let sInt : Int :=
      if signed && n.testBit (width - 1) then (n : Int) - 2 ^ width else (n : Int)
    some ((sInt : ℚ) / 2 ^ frac)

/-- The decoded value the engine reconstructs at time `i`: point lookup
(last transition at-or-before `i`), then `_value_to_int`. -/
def decAt (sig : Signal) (i : Int) : Option Nat :=
  (sig.lookup i).bind value_to_int

/-- The decoded (prev, cur, next) window the condition sees at tick `t`
when every point lookup succeeds: prev is `none` at t = 0, next is `none`
at t = last_clock, and decode failures are `none` as well. -/
def winAt (sig : Signal) (lc t : Nat) :
    Option Nat × Option Nat × Option Nat :=
  ((if 0 < t then decAt sig ((t : Int) - 1) else none),
   decAt sig (t : Int),
   (if t < lc then decAt sig ((t : Int) + 1) else none))

/-- Level condition `cur == 1` (`lambda sm1, s, sp1: s == 1`). -/
def condCur1 : SignalCondition :=
  fun _ s _ => Except.ok (decide (s = some 1))

/-- Rising-edge condition `prev == 0 and cur == 1`. -/
def condRising : SignalCondition :=
  fun sm1 s _ => Except.ok (decide (sm1 = some 0 ∧ s = some 1))

/-- Probe condition reporting the ticks whose decoded `next` is `None`. -/
def condNextNone : SignalCondition :=
  fun _ _ sp1 => Except.ok (decide (sp1 = none))

/-- The test scenario clock: transitions end at tick 10, so T_max = 10. -/
def scnClock : Signal := ⟨[(0, "1"), (10, "0")]⟩

/-- The test scenario signal: transitions (0,'0'), (3,'1'), (7,'0'). -/
def scnSig : Signal := ⟨[(0, "0"), (3, "1"), (7, "0")]⟩

/-- The test scenario wave. -/
def scnWave : VCDWave := ⟨[("clk", scnClock), ("s", scnSig)]⟩

/-- The constructed scenario engine (T_max = 10). -/
def scnVS : SetVCD := ⟨scnWave, scnClock, 10⟩

/-- Condition raising at the first tick whose current value decodes to 1. -/
def condBoom : SignalCondition :=
  fun _ s _ => if s = some 1 then Except.error "boom" else Except.ok false

/-- A signal stuck at x: every decode fails. -/
def xSig : Signal := ⟨[(0, "x")]⟩

/-- A clock whose transitions end at tick 2. -/
def xClock : Signal := ⟨[(0, "1"), (2, "0")]⟩

/-- Wave with the x-valued signal, used against the boundary law. -/
def xWave : VCDWave := ⟨[("clk", xClock), ("sx", xSig)]⟩

/-- Engine over `xWave`: T_max = 2. -/
def xVS : SetVCD := ⟨xWave, xClock, 2⟩

/-- A clock whose transitions end at tick 4, for the suggestion scenario. -/
def topClock : Signal := ⟨[(0, "1"), (4, "0")]⟩

/-- Wave exposing only the signal name "Top.clk". -/
def topWave : VCDWave := ⟨[("Top.clk", topClock)]⟩

/-- Engine over `topWave`: T_max = 4. -/
def topVS : SetVCD := ⟨topWave, topClock, 4⟩

/-- A clock whose transitions end at tick 5. -/
def smallClock : Signal := ⟨[(0, "1"), (5, "0")]⟩

/-- A signal constant 1 from tick 0 on. -/
def constSig : Signal := ⟨[(0, "1")]⟩

/-- Wave for the out-of-domain `get_values` witness: T_max = 5. -/
def smallWave : VCDWave := ⟨[("clk", smallClock), ("c", constSig)]⟩

/-- Engine over `smallWave`: T_max = 5. -/
def smallVS : SetVCD := ⟨smallWave, smallClock, 5⟩

/-- A wave exposing zero signal names. -/
def wEmpty : VCDWave := ⟨[]⟩

/-- A wave whose clock exists but has an empty transition list. -/
def wNoData : VCDWave := ⟨[("clk", ⟨[]⟩)]⟩

/-! ## Helper lemmas about the evaluation loop -/

/-- When every in-domain point lookup succeeds, the raw window at a tick
`t ≤ lc` is exactly (prev lookup gated at 0, value at t, next lookup gated
at lc). -/
theorem rawWindowAt_eval (sig : Signal) (name : String) (lc t : Nat)
    (hall : ∀ u : Nat, u ≤ lc → (sig.lookup (u : Int)).isSome = true)
    (ht : t ≤ lc) :
    ∃ s, sig.lookup (t : Int) = some s ∧
      rawWindowAt sig name lc t = Except.ok
        ((if 0 < t then sig.lookup ((t : Int) - 1) else none), s,
         (if t < lc then sig.lookup ((t : Int) + 1) else none)) := by
  obtain ⟨s, hs⟩ := Option.isSome_iff_exists.mp (hall t ht)
  have hB : fetchVal sig name t (t : Int) = Except.ok s := by
    unfold fetchVal
    rw [hs]
  have hA : (if 0 < t then (fetchVal sig name t ((t : Int) - 1)).map some
             else Except.ok none) =
      Except.ok ((if 0 < t then sig.lookup ((t : Int) - 1) else none) :
        Option String) := by
    by_cases h0 : 0 < t
    · have hidx : ((t - 1 : Nat) : Int) = (t : Int) - 1 := by omega
      have h1 := hall (t - 1) (by omega)
      rw [hidx] at h1
      obtain ⟨v, hv⟩ := Option.isSome_iff_exists.mp h1
      simp only [if_pos h0, hv]
      unfold fetchVal
      rw [hv]
      rfl
    · simp only [if_neg h0]
  have hC : (if t < lc then (fetchVal sig name t ((t : Int) + 1)).map some
             else Except.ok none) =
      Except.ok ((if t < lc then sig.lookup ((t : Int) + 1) else none) :
        Option String) := by
    by_cases h1 : t < lc
    · have hidx : ((t + 1 : Nat) : Int) = (t : Int) + 1 := by omega
      have h2 := hall (t + 1) (by omega)
      rw [hidx] at h2
      obtain ⟨v, hv⟩ := Option.isSome_iff_exists.mp h2
      simp only [if_pos h1, hv]
      unfold fetchVal
      rw [hv]
      rfl
    · simp only [if_neg h1]
  refine ⟨s, hs, ?_⟩
  unfold rawWindowAt
  rw [hA, hB, hC]

/-- For a condition that never raises (it computes the pure predicate `f`),
the per-tick body returns `f` applied to the decoded window, provided all
in-domain lookups succeed. -/
theorem stepCheck_eval (sig : Signal) (name : String) (lc t : Nat)
    (cond : SignalCondition) (f : Option Nat → Option Nat → Option Nat → Bool)
    (hc : ∀ a b c, cond a b c = Except.ok (f a b c))
    (hall : ∀ u : Nat, u ≤ lc → (sig.lookup (u : Int)).isSome = true)
    (ht : t ≤ lc) :
    stepCheck sig name lc cond t =
      Except.ok (f (winAt sig lc t).1 (winAt sig lc t).2.1 (winAt sig lc t).2.2) := by
  obtain ⟨s, hs, hraw⟩ := rawWindowAt_eval sig name lc t hall ht
  rw [stepCheck, hraw]
  simp only [decodeWin, hc]
  simp [winAt, decAt, hs, apply_ite (fun o : Option String => o.bind value_to_int)]

/-- Step equation for the scan: a successful body moves to the next tick
with the possibly-grown accumulator. -/
theorem getLoop_cons_ok (sig : Signal) (name : String) (lc : Nat)
    (cond : SignalCondition) (t : Nat) (ts : List Nat) (out : Finset Nat)
    (b : Bool) (hb : stepCheck sig name lc cond t = Except.ok b) :
    getLoop sig name lc cond (t :: ts) out =
      getLoop sig name lc cond ts (if b then insert t out else out) := by
  rw [getLoop, hb]

/-- Step equation for the scan: a failing body aborts with its error. -/
theorem getLoop_cons_err (sig : Signal) (name : String) (lc : Nat)
    (cond : SignalCondition) (t : Nat) (ts : List Nat) (out : Finset Nat)
    (e : VCDError) (hb : stepCheck sig name lc cond t = Except.error e) :
    getLoop sig name lc cond (t :: ts) out = Except.error e := by
  rw [getLoop, hb]

/-- If the body succeeds on every listed tick, the scan returns the ticks
whose check came back true, joined with the accumulator. -/
theorem getLoop_ok_of_checks (sig : Signal) (name : String) (lc : Nat)
    (cond : SignalCondition) :
    ∀ (ts : List Nat) (out : Finset Nat),
      (∀ t ∈ ts, (stepCheck sig name lc cond t).isOk = true) →
      getLoop sig name lc cond ts out = Except.ok
        (out ∪ (ts.filter
          (fun t => decide (stepCheck sig name lc cond t = Except.ok true))).toFinset)
  | [], out, _ => by simp [getLoop]
  | t :: ts, out, h => by
    have hh := h t (by simp)
    cases hb : stepCheck sig name lc cond t with
    | error e => rw [hb] at hh; simp [Except.isOk, Except.toBool] at hh
    | ok b =>
      rw [getLoop_cons_ok sig name lc cond t ts out b hb]
      cases b with
      | true =>
        rw [getLoop_ok_of_checks sig name lc cond ts _
          (fun u hu => h u (by simp [hu]))]
        rw [List.filter_cons_of_pos (by simp [hb]), List.toFinset_cons]
        rw [if_pos rfl, Finset.insert_union, Finset.union_insert]
      | false =>
        rw [getLoop_ok_of_checks sig name lc cond ts _
          (fun u hu => h u (by simp [hu]))]
        rw [List.filter_cons_of_neg (by simp [hb])]
        rw [if_neg (by decide)]

/-- Whatever the condition, a successful scan only returns listed ticks. -/
theorem getLoop_subset (sig : Signal) (name : String) (lc : Nat)
    (cond : SignalCondition) :
    ∀ (ts : List Nat) (out S : Finset Nat),
      getLoop sig name lc cond ts out = Except.ok S → S ⊆ out ∪ ts.toFinset
  | [], out, S, h => by
    simp [getLoop] at h
    subst h
    simp
  | t :: ts, out, S, h => by
    rw [getLoop] at h
    cases hb : stepCheck sig name lc cond t with
    | error e => rw [hb] at h; exact absurd h (by simp)
    | ok b =>
      rw [hb] at h
      have hsub := getLoop_subset sig name lc cond ts
        (if b then insert t out else out) S h
      rw [List.toFinset_cons, Finset.union_insert]
      cases b with
      | true =>
        rw [if_pos rfl, Finset.insert_union] at hsub
        exact hsub
      | false =>
        rw [if_neg (by decide)] at hsub
        exact hsub.trans (Finset.subset_insert _ _)

/-- A tick in a successful scan's result was in the accumulator or had a
true check. -/
theorem getLoop_mem (sig : Signal) (name : String) (lc : Nat)
    (cond : SignalCondition) :
    ∀ (ts : List Nat) (out S : Finset Nat) (a : Nat),
      getLoop sig name lc cond ts out = Except.ok S → a ∈ S →
      a ∈ out ∨ (a ∈ ts ∧ stepCheck sig name lc cond a = Except.ok true)
  | [], out, S, a, h, haS => by
    simp [getLoop] at h
    subst h
    exact Or.inl haS
  | t :: ts, out, S, a, h, haS => by
    rw [getLoop] at h
    cases hb : stepCheck sig name lc cond t with
    | error e => rw [hb] at h; exact absurd h (by simp)
    | ok b =>
      rw [hb] at h
      have hrec := getLoop_mem sig name lc cond ts
        (if b then insert t out else out) S a h haS
      cases b with
      | true =>
        rw [if_pos rfl] at hrec
        rcases hrec with hin | ⟨hts, hck⟩
        · rcases Finset.mem_insert.mp hin with rfl | hin
          · exact Or.inr ⟨by simp, hb⟩
          · exact Or.inl hin
        · exact Or.inr ⟨by simp [hts], hck⟩
      | false =>
        rw [if_neg (by decide)] at hrec
        rcases hrec with hin | ⟨hts, hck⟩
        · exact Or.inl hin
        · exact Or.inr ⟨by simp [hts], hck⟩

/-- If the body succeeds on a leading block of ticks, the scan reaches the
rest with some accumulator. -/
theorem getLoop_reach (sig : Signal) (name : String) (lc : Nat)
    (cond : SignalCondition) :
    ∀ (l1 : List Nat) (out : Finset Nat),
      (∀ u ∈ l1, (stepCheck sig name lc cond u).isOk = true) →
      ∀ l2, ∃ out2, getLoop sig name lc cond (l1 ++ l2) out =
        getLoop sig name lc cond l2 out2
  | [], out, _, l2 => ⟨out, by simp⟩
  | t :: l1, out, h, l2 => by
    have hh := h t (by simp)
    cases hb : stepCheck sig name lc cond t with
    | error e => rw [hb] at hh; simp [Except.isOk, Except.toBool] at hh
    | ok b =>
      obtain ⟨out2, h2⟩ := getLoop_reach sig name lc cond l1
        (if b then insert t out else out) (fun u hu => h u (by simp [hu])) l2
      refine ⟨out2, ?_⟩
      rw [List.cons_append, getLoop, hb]
      exact h2

/-- The collection loop of `get_values` maps decode over the times when
every lookup succeeds. -/
theorem valuesLoop_eval (sig : Signal) (name : String) :
    ∀ l : List Int, (∀ t ∈ l, (sig.lookup t).isSome = true) →
      valuesLoop sig name l = Except.ok (l.map (fun t => (t, decAt sig t)))
  | [], _ => by simp [valuesLoop]
  | t :: ts, h => by
    obtain ⟨v, hv⟩ := Option.isSome_iff_exists.mp (h t (by simp))
    rw [valuesLoop, hv]
    rw [valuesLoop_eval sig name ts (fun u hu => h u (by simp [hu]))]
    simp [Except.map, decAt, hv]

/-- A successful collection loop preserves the queried times in order. -/
theorem valuesLoop_times (sig : Signal) (name : String) :
    ∀ (l : List Int) (M : List (Int × Option Nat)),
      valuesLoop sig name l = Except.ok M → M.map Prod.fst = l
  | [], M, h => by
    simp [valuesLoop] at h
    subst h
    rfl
  | t :: ts, M, h => by
    rw [valuesLoop] at h
    cases hv : sig.lookup t with
    | none => rw [hv] at h; exact absurd h (by simp)
    | some v =>
      rw [hv] at h
      cases hM : valuesLoop sig name ts with
      | error e => rw [hM] at h; exact absurd h (by simp [Except.map])
      | ok M0 =>
        rw [hM] at h
        simp only [Except.map] at h
        cases h
        simp [valuesLoop_times sig name ts M0 hM]

/-- Success-path unfolding of `get`: with the name resolvable, `get` is the
dense scan over [0, last_clock] starting from the empty set. -/
theorem get_unfold_ok (vs : SetVCD) (name : String) (sig : Signal)
    (cond : SignalCondition)
    (h1 : vs.wave.get_signals.contains name = true)
    (h2 : vs.wave.getSignal name = some sig) :
    vs.get name cond =
      getLoop sig name vs.last_clock cond (List.range (vs.last_clock + 1)) ∅ := by
  simp only [SetVCD.get, h1, if_true, h2]

/-- The raw window fetched at tick 0 always has `none` as its prev
component (`time > 0` fails, so no lookup at −1 happens). -/
theorem rawWindowAt_zero_fst (sig : Signal) (name : String) (lc : Nat)
    (w : Option String × String × Option String)
    (h : rawWindowAt sig name lc 0 = Except.ok w) : w.1 = none := by
  rw [rawWindowAt, if_neg (by omega : ¬ 0 < 0)] at h
  split at h
  · exact absurd h (by simp)
  · rename_i sm1 heqA
    split at h
    · exact absurd h (by simp)
    · split at h
      · exact absurd h (by simp)
      · cases h
        cases heqA
        rfl

/-- The list [0, ..., n-1] as a finite set is `Finset.range n`. -/
theorem toFinset_list_range (n : Nat) :
    (List.range n).toFinset = Finset.range n := by
  ext a
  simp [List.mem_toFinset, List.mem_range, Finset.mem_range]

/-! ## Claim theorems -/

/-- C1: for the level condition `cur == 1`, `get` returns exactly the ticks
t in [0, T_max] whose value, reconstructed as the last transition
at-or-before t, decodes to 1. -/
theorem get_level_condition_law (vs : SetVCD) (name : String) (sig : Signal)
    (h1 : vs.wave.get_signals.contains name = true)
    (h2 : vs.wave.getSignal name = some sig)
    (hall : ∀ u : Nat, u ≤ vs.last_clock → (sig.lookup (u : Int)).isSome = true) :
    vs.get name condCur1 = Except.ok
      ((Finset.range (vs.last_clock + 1)).filter
        (fun t : Nat => decAt sig (t : Int) = some 1)) := by
  rw [get_unfold_ok vs name sig condCur1 h1 h2]
  have hstep : ∀ t, t ≤ vs.last_clock →
      stepCheck sig name vs.last_clock condCur1 t =
        Except.ok (decide (decAt sig (t : Int) = some 1)) := by
    intro t ht
    exact stepCheck_eval sig name vs.last_clock t condCur1
      (fun _ s _ => decide (s = some 1)) (fun a b c => rfl) hall ht
  rw [getLoop_ok_of_checks sig name vs.last_clock condCur1 _ ∅
    (fun t htm => by
      rw [hstep t (by have := List.mem_range.mp htm; omega)]
      rfl)]
  congr 1
  rw [Finset.empty_union, List.toFinset_filter, toFinset_list_range]
  apply Finset.filter_congr
  intro t htm
  rw [hstep t (by have := Finset.mem_range.mp htm; omega)]
  simp

/-- C1 witness: the documented scenario (clock ends at tick 10, signal
transitions (0,'0'),(3,'1'),(7,'0')) run through the law yields exactly
the ticks decoding to 1, and that set is {3, 4, 5, 6}. -/
theorem get_level_condition_law_scn :
    scnVS.get "s" condCur1 = Except.ok
      ((Finset.range (10 + 1)).filter (fun t : Nat => decAt scnSig (t : Int) = some 1)) ∧
    (Finset.range (10 + 1)).filter (fun t : Nat => decAt scnSig (t : Int) = some 1) =
      ({3, 4, 5, 6} : Finset Nat) := by
  constructor
  · exact get_level_condition_law scnVS "s" scnSig (by decide) (by decide)
      (by decide)
  · decide

/-- C3: a successful `get` returns a set of ticks inside [0, T_max]. -/
theorem get_subset_domain (vs : SetVCD) (name : String) (cond : SignalCondition)
    (S : Finset Nat) (h : vs.get name cond = Except.ok S) :
    S ⊆ Finset.range (vs.last_clock + 1) := by
  simp only [SetVCD.get] at h
  by_cases h1 : vs.wave.get_signals.contains name = true
  · rw [if_pos h1] at h
    cases h2 : vs.wave.getSignal name with
    | none => rw [h2] at h; exact absurd h (by simp)
    | some sig =>
      rw [h2] at h
      have hsub := getLoop_subset sig name vs.last_clock cond
        (List.range (vs.last_clock + 1)) ∅ S h
      rwa [Finset.empty_union, toFinset_list_range] at hsub
  · rw [if_neg h1] at h
    exact absurd h (by simp)

/-- C3 witness: the scenario's result set sits inside [0, 10]. -/
theorem get_subset_domain_w :
    ({3, 4, 5, 6} : Finset Nat) ⊆ Finset.range (10 + 1) :=
  get_subset_domain scnVS "s" condCur1 {3, 4, 5, 6} (by decide)

/-- C8: the rising-edge condition `prev == 0 and cur == 1` never selects
tick 0, because prev is `None` there. -/
theorem get_rising_never_selects_zero (vs : SetVCD) (name : String)
    (S : Finset Nat) (h : vs.get name condRising = Except.ok S) : 0 ∉ S := by
  intro h0
  simp only [SetVCD.get] at h
  by_cases h1 : vs.wave.get_signals.contains name = true
  · rw [if_pos h1] at h
    cases h2 : vs.wave.getSignal name with
    | none => rw [h2] at h; exact absurd h (by simp)
    | some sig =>
      rw [h2] at h
      rcases getLoop_mem sig name vs.last_clock condRising _ ∅ S 0 h h0 with
        hin | ⟨-, hck⟩
      · simp at hin
      · rw [stepCheck] at hck
        cases hr : rawWindowAt sig name vs.last_clock 0 with
        | error e => rw [hr] at hck; exact absurd hck (by simp)
        | ok w =>
          rw [hr] at hck
          have hw1 : w.1 = none := rawWindowAt_zero_fst sig name vs.last_clock w hr
          simp [decodeWin, hw1, condRising] at hck
  · rw [if_neg h1] at h
    exact absurd h (by simp)

/-- C8 witness: on the scenario trace the rising-edge set is {3}, and 0 is
not in it. -/
theorem get_rising_never_selects_zero_w : 0 ∉ ({3} : Finset Nat) :=
  get_rising_never_selects_zero scnVS "s" {3} (by decide)

/-- C4 counterexample: on a trace whose signal is x-valued, the decoded
`next` handed to the condition is `None` at ticks 0 and 1 although
T_max = 2, so "next is None only at t = T_max" fails for the decoded
window: the probe condition `next is None` selects every tick. -/
theorem decoded_next_none_before_tmax :
    SetVCD.init xWave "clk" = Except.ok xVS ∧
    xVS.last_clock = 2 ∧
    xVS.get "sx" condNextNone = Except.ok ({0, 1, 2} : Finset Nat) ∧
    (0 : Nat) ∈ ({0, 1, 2} : Finset Nat) ∧ (0 : Nat) ≠ 2 := by
  refine ⟨by decide, rfl, by decide, by decide, by decide⟩

/-- C4 amended: the boundary law holds of the raw fetch: in a successfully
fetched window at tick t ≤ T_max, the raw `next` string is `None` exactly
at t = T_max.  (The decoded `next` can additionally be `None` below T_max
when the value at t+1 fails to decode; see the counterexample.) -/
theorem raw_next_none_iff_tmax (sig : Signal) (name : String) (lc t : Nat)
    (w : Option String × String × Option String) (ht : t ≤ lc)
    (h : rawWindowAt sig name lc t = Except.ok w) :
    w.2.2 = none ↔ t = lc := by
  rw [rawWindowAt] at h
  split at h
  · exact absurd h (by simp)
  · split at h
    · exact absurd h (by simp)
    · split at h
      · exact absurd h (by simp)
      · rename_i sp1 heq3
        cases h
        by_cases hlt : t < lc
        · rw [if_pos hlt] at heq3
          cases hf : fetchVal sig name t ((t : Int) + 1) with
          | error e =>
            rw [hf] at heq3
            exact absurd heq3 (by simp [Except.map])
          | ok v =>
            rw [hf] at heq3
            simp only [Except.map] at heq3
            cases heq3
            exact ⟨fun hx => absurd hx (by simp), fun hx => absurd hx (by omega)⟩
        · rw [if_neg hlt] at heq3
          cases heq3
          exact ⟨fun _ => by omega, fun _ => rfl⟩

/-- C4 amended witness: at tick 4 < 10 of the scenario the raw `next` is
`some "1"`, matching 4 ≠ 10. -/
theorem raw_next_none_iff_tmax_w :
    ((some "1" : Option String) = none ↔ (4 : Nat) = 10) :=
  raw_next_none_iff_tmax scnSig "s" 10 4 (some "1", "1", some "1")
    (by omega) (by decide)

/-- C5: a condition that raises at tick t0 of the scan (every earlier tick
having succeeded) aborts the whole call with
`InvalidSignalConditionError` carrying t0 and the cause; no result set is
returned. -/
theorem cond_raise_aborts (vs : SetVCD) (name : String) (sig : Signal)
    (cond : SignalCondition) (t0 : Nat) (cause : String)
    (w : Option String × String × Option String)
    (h1 : vs.wave.get_signals.contains name = true)
    (h2 : vs.wave.getSignal name = some sig)
    (ht0 : t0 ≤ vs.last_clock)
    (hbefore : ∀ u, u < t0 → (stepCheck sig name vs.last_clock cond u).isOk = true)
    (hwin : rawWindowAt sig name vs.last_clock t0 = Except.ok w)
    (hraise : cond (decodeWin w).1 (decodeWin w).2.1 (decodeWin w).2.2 =
      Except.error cause) :
    vs.get name cond =
      Except.error (VCDError.invalidSignalCondition t0 cause) := by
  rw [get_unfold_ok vs name sig cond h1 h2]
  have hstep : stepCheck sig name vs.last_clock cond t0 =
      Except.error (VCDError.invalidSignalCondition t0 cause) := by
    rw [stepCheck, hwin]
    simp only [hraise]
  have hsplit : List.range (vs.last_clock + 1) =
      List.range t0 ++ t0 ::
        ((List.range (vs.last_clock - t0)).map (fun i => t0 + 1 + i)) := by
    have he : vs.last_clock + 1 = (t0 + 1) + (vs.last_clock - t0) := by omega
    rw [he, List.range_add, List.range_succ]
    simp [List.append_assoc]
  rw [hsplit]
  obtain ⟨out2, hreach⟩ := getLoop_reach sig name vs.last_clock cond
    (List.range t0) ∅ (fun u hu => hbefore u (List.mem_range.mp hu))
    (t0 :: (List.range (vs.last_clock - t0)).map (fun i => t0 + 1 + i))
  rw [hreach]
  exact getLoop_cons_err sig name vs.last_clock cond t0 _ out2 _ hstep

/-- C5 witness: `condBoom` raises at tick 3 on the scenario trace and the
whole call fails with that tick and the cause "boom". -/
theorem cond_raise_aborts_w :
    scnVS.get "s" condBoom =
      Except.error (VCDError.invalidSignalCondition 3 "boom") :=
  cond_raise_aborts scnVS "s" scnSig condBoom 3 "boom"
    (some "0", "1", some "1") (by decide) (by decide) (by decide)
    (by decide) (by decide) (by decide)

/-- A successful `get_values` call is decode mapped over the requested
times in ascending order. -/
theorem get_values_eval (vs : SetVCD) (name : String) (sig : Signal)
    (R : Finset Int)
    (h1 : vs.wave.get_signals.contains name = true)
    (h2 : vs.wave.getSignal name = some sig)
    (h3 : ∀ t ∈ R, (sig.lookup t).isSome = true) :
    vs.get_values name R = Except.ok
      ((R.sort (fun a b => a ≤ b)).map (fun t => (t, decAt sig t))) := by
  simp only [SetVCD.get_values, h1, if_true, h2]
  rw [valuesLoop_eval sig name (R.sort (fun a b => a ≤ b))
    (fun t ht => h3 t ((Finset.mem_sort (fun a b : Int => a ≤ b)).mp ht))]
  simp only [Except.map]
  congr 1
  apply List.mergeSort_of_sorted
  exact List.Pairwise.map (fun t => (t, decAt sig t))
    (fun a b hab => decide_eq_true hab)
    (Finset.sort_sorted (fun a b : Int => a ≤ b) R)

/-- C6: a successful getValues run over a set R of times returns |R|
entries, every entry's time in R, strictly ascending by time; R = ∅ gives
the empty list. -/
theorem get_values_roundtrip (vs : SetVCD) (name : String) (R : Finset Int)
    (L : List (Int × Option Nat))
    (hL : vs.get_values name R = Except.ok L) :
    L.length = R.card ∧ (∀ p ∈ L, p.1 ∈ R) ∧
    List.Sorted (fun p q : Int × Option Nat => p.1 < q.1) L ∧
    (R = ∅ → L = []) := by
  simp only [SetVCD.get_values] at hL
  by_cases h1 : vs.wave.get_signals.contains name = true
  · rw [if_pos h1] at hL
    cases h2 : vs.wave.getSignal name with
    | none => rw [h2] at hL; exact absurd hL (by simp)
    | some sig =>
      rw [h2] at hL
      have hL2 : Except.map
          (fun L : List (Int × Option Nat) =>
            L.mergeSort (fun a b => decide (a.1 ≤ b.1)))
          (valuesLoop sig name (R.sort (fun a b => a ≤ b))) =
          Except.ok L := hL
      cases hM : valuesLoop sig name (R.sort (fun a b => a ≤ b)) with
      | error e => rw [hM] at hL2; exact absurd hL2 (by simp [Except.map])
      | ok M =>
        rw [hM] at hL2
        simp only [Except.map] at hL2
        have hfst : M.map Prod.fst = R.sort (fun a b => a ≤ b) :=
          valuesLoop_times sig name _ M hM
        have hsortedR : List.Sorted (fun a b : Int => a ≤ b)
            (R.sort (fun a b => a ≤ b)) := Finset.sort_sorted _ _
        have hsortedRlt : List.Sorted (fun a b : Int => a < b)
            (R.sort (fun a b => a ≤ b)) := Finset.sort_sorted_lt R
        have hMp : M.Pairwise
            (fun a b : Int × Option Nat => decide (a.1 ≤ b.1) = true) := by
          rw [← hfst] at hsortedR
          exact (List.pairwise_map.mp hsortedR).imp
            (fun hab => decide_eq_true hab)
        have hLM : L = M := by
          have hinj := Except.ok.inj hL2
          rw [← hinj, List.mergeSort_of_sorted hMp]
        subst hLM
        refine ⟨?_, ?_, ?_, ?_⟩
        · have hlen := congrArg List.length hfst
          simp only [List.length_map, Finset.length_sort] at hlen
          exact hlen
        · intro p hp
          have hmem : p.1 ∈ L.map Prod.fst := List.mem_map_of_mem Prod.fst hp
          rw [hfst] at hmem
          exact (Finset.mem_sort (fun a b : Int => a ≤ b)).mp hmem
        · rw [← hfst] at hsortedRlt
          exact List.pairwise_map.mp hsortedRlt
        · intro hR
          subst hR
          rw [Finset.sort_empty] at hfst
          exact List.map_eq_nil_iff.mp hfst
  · rw [if_neg h1] at hL
    exact absurd hL (by simp)

unseal List.merge List.mergeSort in
/-- C6 witness: on the scenario trace, getValues over {4, 1} returns the
expected two entries in ascending time order. -/
theorem get_values_roundtrip_w :
    ([(1, some 0), (4, some 1)] : List (Int × Option Nat)).length =
      ({4, 1} : Finset Int).card ∧
    (∀ p ∈ ([(1, some 0), (4, some 1)] : List (Int × Option Nat)),
      p.1 ∈ ({4, 1} : Finset Int)) ∧
    List.Sorted (fun p q : Int × Option Nat => p.1 < q.1)
      [(1, some 0), (4, some 1)] ∧
    (({4, 1} : Finset Int) = ∅ →
      ([(1, some 0), (4, some 1)] : List (Int × Option Nat)) = []) :=
  get_values_roundtrip scnVS "s" {4, 1} [(1, some 0), (4, some 1)] (by decide)

/-- C10: `get_values` performs no domain check on its input times: every
requested time, with no constraint against [0, T_max], is queried at
exactly that time and whatever decodes there is returned. -/
theorem get_values_no_domain_check (vs : SetVCD) (name : String)
    (sig : Signal) (R : Finset Int)
    (h1 : vs.wave.get_signals.contains name = true)
    (h2 : vs.wave.getSignal name = some sig)
    (h3 : ∀ t ∈ R, (sig.lookup t).isSome = true) :
    vs.get_values name R = Except.ok
      ((R.sort (fun a b => a ≤ b)).map (fun t => (t, decAt sig t))) :=
  get_values_eval vs name sig R h1 h2 h3

/-- C10 witness: time 100 lies beyond T_max = 5 yet is queried and its
decode returned. -/
theorem get_values_no_domain_check_w :
    smallVS.get_values "c" ({100} : Finset Int) =
      Except.ok [(100, some 1)] ∧ ((smallVS.last_clock : Int) < 100) := by
  constructor
  · have h := get_values_no_domain_check smallVS "c" constSig {100}
      (by decide) (by decide) (by decide)
    rw [h, Finset.sort_singleton]
    decide
  · decide

/-- C9: construction from a capability object fails EmptyTrace when there
are zero signal names (checked before any clock lookup, so it holds for
every clock name and wins over ClockNotFound); fails EmptyTrace when the
clock matches exactly but its transition list is empty; and fails
ClockNotFound carrying the fuzzy suggestion list when the clock has no
exact match in a non-empty signal list. -/
theorem init_error_taxonomy :
    (∀ (w : VCDWave) (clock : String), w.get_signals = [] →
      SetVCD.init w clock =
        Except.error (VCDError.emptyVCD "VCD file contains no signals")) ∧
    (∀ (w : VCDWave) (clock : String) (csig : Signal),
      w.get_signals.contains clock = true →
      w.getSignal clock = some csig → csig.tv = [] →
      SetVCD.init w clock = Except.error (VCDError.emptyVCD
        ("Clock signal " ++ clock ++ " has no time/value data"))) ∧
    (∀ (w : VCDWave) (clock : String), w.get_signals ≠ [] →
      w.get_signals.contains clock = false →
      SetVCD.init w clock = Except.error (VCDError.clockSignalError clock
        (suggest clock w.get_signals) w.get_signals)) := by
  refine ⟨?_, ?_, ?_⟩
  · intro w clock hw
    simp [SetVCD.init, hw]
  · intro w clock csig hc hg htv
    have hmem : clock ∈ w.get_signals := by simpa using hc
    have hne : w.get_signals.isEmpty = false := by
      cases hs : w.get_signals with
      | nil => rw [hs] at hc; simp at hc
      | cons a l => simp
    simp [SetVCD.init, hne, hmem, hg, htv]
  · intro w clock hne hc
    have hnotmem : clock ∉ w.get_signals := by simpa using hc
    have hne' : w.get_signals.isEmpty = false := by
      cases hs : w.get_signals with
      | nil => exact absurd hs hne
      | cons a l => simp
    simp [SetVCD.init, hne', hnotmem]

/-- C9 witness: a wave with zero signals, a wave whose clock has no
transitions, and a wave missing the requested clock, each failing as the
taxonomy says. -/
theorem init_error_taxonomy_w :
    SetVCD.init wEmpty "clk" =
      Except.error (VCDError.emptyVCD "VCD file contains no signals") ∧
    SetVCD.init wNoData "clk" = Except.error (VCDError.emptyVCD
      ("Clock signal " ++ "clk" ++ " has no time/value data")) ∧
    SetVCD.init topWave "zzz" = Except.error (VCDError.clockSignalError "zzz"
      (suggest "zzz" ["Top.clk"]) ["Top.clk"]) :=
  ⟨init_error_taxonomy.1 wEmpty "clk" rfl,
   init_error_taxonomy.2.1 wNoData "clk" ⟨[]⟩ (by decide) (by decide) rfl,
   init_error_taxonomy.2.2 topWave "zzz" (by decide) (by decide)⟩

/-- C2 (spec-modelled FixedPoint decode): delegation to Raw (None on x/z),
unsigned values divide directly by 2^frac, signed values with the top bit
set subtract 2^width first, and the two documented examples hold. -/
theorem fp_decode_law :
    (∀ (frac : Nat) (signed : Bool) (v : String),
      value_to_int v = none → fp_decode frac signed v = none) ∧
    (∀ (frac : Nat) (v : String) (n : Nat), value_to_int v = some n →
      fp_decode frac false v = some ((n : ℚ) / 2 ^ frac)) ∧
    (∀ (frac : Nat) (v : String) (n : Nat), value_to_int v = some n →
      n.testBit (v.data.length - 1) = true →
      fp_decode frac true v =
        some ((((n : Int) - 2 ^ v.data.length : Int) : ℚ) / 2 ^ frac)) ∧
    (∀ (frac : Nat) (v : String) (n : Nat), value_to_int v = some n →
      n.testBit (v.data.length - 1) = false →
      fp_decode frac true v = some ((n : ℚ) / 2 ^ frac)) ∧
    fp_decode 4 false "00010000" = some 1 ∧
    fp_decode 0 true "11111111" = some (-1) := by
  refine ⟨?_, ?_, ?_, ?_, ?_, ?_⟩
  · intro frac signed v hv
    simp [fp_decode, hv]
  · intro frac v n hv
    simp [fp_decode, hv]
  · intro frac v n hv hb
    have hb2 : n.testBit (v.length - 1) = true := by simpa using hb
    simp [fp_decode, hv, hb2]
  · intro frac v n hv hb
    have hb2 : n.testBit (v.length - 1) = false := by simpa using hb
    simp [fp_decode, hv, hb2]
  · have h : value_to_int "00010000" = some 16 := by decide
    simp [fp_decode, h]
    norm_num
  · have h : value_to_int "11111111" = some 255 := by decide
    have hb : Nat.testBit 255 7 = true := by decide
    simp [fp_decode, h, hb]

/-- C2 witness: the delegation law instantiated at the two documented
inputs. -/
theorem fp_decode_law_w :
    fp_decode 4 false "00010000" = some ((16 : ℚ) / 2 ^ 4) ∧
    fp_decode 0 true "11111111" =
      some ((((255 : Int) - 2 ^ 8 : Int) : ℚ) / 2 ^ 0) :=
  ⟨fp_decode_law.2.1 4 "00010000" 16 (by decide),
   fp_decode_law.2.2.1 0 "11111111" 255 (by decide) (by decide)⟩

/-- `scored_signals` is the positively-scoring names, each tagged with its
score, in enumeration order. -/
theorem scoredOf_eq (search : String) (sigs : List String) :
    scoredOf search sigs =
      (sigs.filter (fun s => decide (0 < scoreName search s))).map
        (fun s => (scoreName search s, s)) := by
  induction sigs with
  | nil => rfl
  | cons a l ih =>
    simp only [scoredOf] at ih ⊢
    rw [List.filterMap_cons]
    by_cases h : 0 < scoreName search a
    · simp [h, List.filter_cons, ih]
    · simp [h, List.filter_cons, ih]

/-- Transitivity of the descending-score comparison. -/
theorem descLe_trans (a b c : Nat × String)
    (hab : decide (b.1 ≤ a.1) = true) (hbc : decide (c.1 ≤ b.1) = true) :
    decide (c.1 ≤ a.1) = true := by
  simp only [decide_eq_true_eq] at *
  omega

/-- Totality of the descending-score comparison. -/
theorem descLe_total (a b : Nat × String) :
    (decide (b.1 ≤ a.1) || decide (a.1 ≤ b.1)) = true := by
  simp only [Bool.or_eq_true, decide_eq_true_eq]
  omega

/-- Every ranked entry carries its name's score, scores positive, names
from the enumeration. -/
theorem mem_rankedOf (search : String) (sigs : List String)
    (p : Nat × String) (hp : p ∈ rankedOf search sigs) :
    p.1 = scoreName search p.2 ∧ 0 < p.1 ∧ p.2 ∈ sigs := by
  rw [rankedOf, List.mem_mergeSort, scoredOf_eq] at hp
  obtain ⟨s, hs, rfl⟩ := List.mem_map.mp hp
  have hm := List.mem_filter.mp hs
  exact ⟨rfl, by simpa using hm.2, hm.1⟩

/-- C7: the suggestion heuristic.  The suggestion list has min 5 #positives
entries; every suggestion scores positive and is an existing name;
suggestions are ranked by descending score; ties keep enumeration order
(each positive score class of the output is a sublist of the same class of
the input); when nothing scores positive the display falls back to the
first 10 names; and requesting "Top.clkk" against the sole name "Top.clk"
raises SignalNotFound whose suggestions are exactly ["Top.clk"]. -/
theorem suggestion_heuristic :
    (∀ (search : String) (sigs : List String),
      (suggest search sigs).length =
        min 5 (sigs.filter (fun s => decide (0 < scoreName search s))).length ∧
      (∀ s ∈ suggest search sigs, 0 < scoreName search s ∧ s ∈ sigs) ∧
      (suggest search sigs).Pairwise
        (fun a b => scoreName search b ≤ scoreName search a) ∧
      (∀ k : Nat, 0 < k →
        List.Sublist
          ((suggest search sigs).filter
            (fun s => decide (scoreName search s = k)))
          (sigs.filter (fun s => decide (scoreName search s = k)))) ∧
      ((∀ s ∈ sigs, scoreName search s = 0) →
        suggestionDisplay (suggest search sigs) sigs = sigs.take 10)) ∧
    (topVS.get "Top.clkk" condCur1 = Except.error (VCDError.signalNotFound
        "Top.clkk" (suggest "Top.clkk" ["Top.clk"]) ["Top.clk"]) ∧
      suggest "Top.clkk" ["Top.clk"] = ["Top.clk"]) := by
  constructor
  · intro search sigs
    refine ⟨?_, ?_, ?_, ?_, ?_⟩
    · rw [suggest, List.length_map, List.length_take, rankedOf,
        List.length_mergeSort, scoredOf_eq, List.length_map]
    · intro s hs
      rw [suggest] at hs
      obtain ⟨p, hp, rfl⟩ := List.mem_map.mp hs
      have hpr := mem_rankedOf search sigs p (List.mem_of_mem_take hp)
      exact ⟨hpr.1 ▸ hpr.2.1, hpr.2.2⟩
    · rw [suggest]
      have hpw : (rankedOf search sigs).Pairwise
          (fun a b : Nat × String => decide (b.1 ≤ a.1) = true) :=
        List.sorted_mergeSort descLe_trans descLe_total _
      have htake := hpw.sublist (List.take_sublist 5 _)
      refine List.pairwise_map.mpr (htake.imp_of_mem ?_)
      intro a b ha hb hab
      have hA := mem_rankedOf search sigs a (List.mem_of_mem_take ha)
      have hB := mem_rankedOf search sigs b (List.mem_of_mem_take hb)
      rw [← hA.1, ← hB.1]
      simpa using hab
    · intro k hk
      have hcpw : ((scoredOf search sigs).filter
          (fun p => decide (p.1 = k))).Pairwise
          (fun a b : Nat × String => decide (b.1 ≤ a.1) = true) := by
        apply List.pairwise_of_forall_mem_list
        intro a ha b hb
        have ha2 := (List.mem_filter.mp ha).2
        have hb2 := (List.mem_filter.mp hb).2
        simp only [decide_eq_true_eq] at ha2 hb2 ⊢
        omega
      have h1 : List.Sublist
          ((scoredOf search sigs).filter (fun p => decide (p.1 = k)))
          (rankedOf search sigs) :=
        List.sublist_mergeSort descLe_trans descLe_total hcpw
          (List.filter_sublist _)
      have h2 : (rankedOf search sigs).filter (fun p => decide (p.1 = k)) =
          (scoredOf search sigs).filter (fun p => decide (p.1 = k)) := by
        have hperm : List.Perm
            ((rankedOf search sigs).filter (fun p => decide (p.1 = k)))
            ((scoredOf search sigs).filter (fun p => decide (p.1 = k))) :=
          (List.mergeSort_perm _ _).filter _
        have hsub2 : List.Sublist
            ((scoredOf search sigs).filter (fun p => decide (p.1 = k)))
            ((rankedOf search sigs).filter (fun p => decide (p.1 = k))) := by
          have hf := h1.filter (fun p => decide (p.1 = k))
          rw [List.filter_filter] at hf
          have hAnd : (scoredOf search sigs).filter
              (fun a => decide (a.1 = k) && decide (a.1 = k)) =
              (scoredOf search sigs).filter (fun p => decide (p.1 = k)) := by
            apply List.filter_congr
            intro a _
            cases hP : decide (a.1 = k) <;> simp [hP]
          rwa [hAnd] at hf
        exact (hsub2.eq_of_length hperm.length_eq.symm).symm
      have h3 : List.Sublist
          (((rankedOf search sigs).take 5).filter
            (fun p => decide (p.1 = k)))
          ((scoredOf search sigs).filter (fun p => decide (p.1 = k))) := by
        rw [← h2]
        exact (List.take_sublist 5 _).filter _
      have e1 : (suggest search sigs).filter
          (fun s => decide (scoreName search s = k)) =
          (((rankedOf search sigs).take 5).filter
            (fun p => decide (p.1 = k))).map Prod.snd := by
        rw [suggest, List.filter_map]
        congr 1
        apply List.filter_congr
        intro p hp
        have hpr := mem_rankedOf search sigs p (List.mem_of_mem_take hp)
        simp only [Function.comp]
        rw [← hpr.1]
      have h4 : ((scoredOf search sigs).filter
          (fun p => decide (p.1 = k))).map Prod.snd =
          sigs.filter (fun s => decide (scoreName search s = k)) := by
        rw [scoredOf_eq, List.filter_map, List.map_map]
        have hcomp : ((fun p : Nat × String => decide (p.1 = k)) ∘
            (fun s => (scoreName search s, s))) =
            (fun s => decide (scoreName search s = k)) := rfl
        rw [hcomp, List.filter_filter]
        have hpt : ∀ s ∈ sigs,
            (decide (scoreName search s = k) &&
              decide (0 < scoreName search s)) =
            decide (scoreName search s = k) := by
          intro s _
          cases hP : decide (scoreName search s = k) with
          | false => simp
          | true =>
            have : scoreName search s = k := of_decide_eq_true hP
            simp [this, hk]
        rw [List.filter_congr hpt]
        have hsnd : (Prod.snd ∘ fun s => (scoreName search s, s)) =
            (fun s : String => s) := rfl
        rw [hsnd, List.map_id']
      rw [e1, ← h4]
      exact h3.map Prod.snd
    · intro hall0
      have hfilter : sigs.filter (fun s => decide (0 < scoreName search s)) =
          [] := by
        apply List.filter_eq_nil_iff.mpr
        intro a ha
        simp [hall0 a ha]
      have hsug0 : suggest search sigs = [] := by
        rw [suggest, rankedOf, scoredOf_eq, hfilter]
        simp
      rw [hsug0]
      simp [suggestionDisplay]
  · have hsc : scoredOf "Top.clkk" ["Top.clk"] = [(1, "Top.clk")] := by decide
    have hsug : suggest "Top.clkk" ["Top.clk"] = ["Top.clk"] := by
      rw [suggest, rankedOf, hsc, List.mergeSort_singleton]
      rfl
    refine ⟨?_, hsug⟩
    simp only [SetVCD.get]
    rw [if_neg (by decide)]
    rw [show topVS.wave.get_signals = ["Top.clk"] from rfl, hsug]

/-- C7 witness: the heuristic instantiated at the scenario inputs: at most
min 5 1 = 1 suggestion, and it scores positive and names an existing
signal. -/
theorem suggestion_heuristic_w :
    (suggest "Top.clkk" ["Top.clk"]).length = min 5
      ((["Top.clk"] : List String).filter
        (fun s => decide (0 < scoreName "Top.clkk" s))).length ∧
    ("Top.clk" ∈ suggest "Top.clkk" ["Top.clk"] →
      0 < scoreName "Top.clkk" "Top.clk" ∧ "Top.clk" ∈ ["Top.clk"]) :=
  ⟨(suggestion_heuristic.1 "Top.clkk" ["Top.clk"]).1,
   fun hmem => (suggestion_heuristic.1 "Top.clkk" ["Top.clk"]).2.1
     "Top.clk" hmem⟩

end SetVCDModel
